import Mathlib

/-
Verification of the mops tracker (src/main.py): a scrape-diff-persist
pipeline.  We embed the pure logic of the script: Python string operations
are modelled over `List Char` (Python strings are sequences of code points),
the persisted state is an association list keyed by identifier, the fetch
routine's parsing and rate-limit retry are modelled on scripted response
bodies, and the JSON state document is modelled at the JSON-value level.
-/

namespace Mops

/- ## Python string primitives, modelled over code-point lists -/

/-- Python `a <= b` on strings restricted to what sorting needs:
lexicographic comparison by code point. -/
def listLe : List Char → List Char → Bool
  | [], _ => true
  | _ :: _, [] => false
  | a :: as, b :: bs => a.toNat < b.toNat || (a.toNat = b.toNat && listLe as bs)

def strLe (a b : String) : Bool := listLe a.data b.data

/-- Helper for Python's substring test `sub in s`. -/
def containsSubAux (sub : List Char) : List Char → Bool
  | [] => sub.isEmpty
  | c :: rest => sub.isPrefixOf (c :: rest) || containsSubAux sub rest

/-- Python `sub in s` (substring containment). -/
def pyIn (sub s : String) : Bool := containsSubAux sub.data s.data

/-- Helper for Python `s.split(sep)` with non-empty `sep`; `fuel` bounds the
recursion and is instantiated with the length of the subject, which suffices
because every step consumes at least one character. -/
def splitOnFuel (sep : List Char) : Nat → List Char → List Char → List (List Char)
  | _, [], acc => [acc.reverse]
  | 0, cs, acc => [acc.reverse ++ cs]
  | fuel + 1, c :: rest, acc =>
    if sep.isPrefixOf (c :: rest) then
      acc.reverse :: splitOnFuel sep fuel (List.drop sep.length (c :: rest)) []
    else
      splitOnFuel sep fuel rest (c :: acc)

/-- Python `s.split(sep)` for a non-empty separator. -/
def pySplitOn (s sep : String) : List String :=
  (splitOnFuel sep.data s.data.length s.data []).map String.mk

/-- Helper for Python `s.split()` (split on whitespace runs, no empties). -/
def splitWSAux : List Char → List Char → List (List Char)
  | [], acc => if acc.isEmpty then [] else [acc.reverse]
  | c :: rest, acc =>
    if c.isWhitespace then
      if acc.isEmpty then splitWSAux rest [] else acc.reverse :: splitWSAux rest []
    else
      splitWSAux rest (c :: acc)

/-- Python `s.split()` with no argument. -/
def pySplitWS (s : String) : List String := (splitWSAux s.data []).map String.mk

/-- Python `s.strip()`: remove leading and trailing whitespace. -/
def pyStrip (s : String) : String :=
  String.mk (((s.data.dropWhile Char.isWhitespace).reverse.dropWhile Char.isWhitespace).reverse)

/-- Python `s.replace("/", "")`: drop every slash. -/
def pyReplaceSlash (s : String) : String :=
  String.mk (s.data.filter (fun c => c != '/'))

/-- Python `int(s)` on a string of decimal digits. -/
def pyInt (s : String) : Nat :=
  s.data.foldl (fun n c => n * 10 + (c.toNat - 48)) 0

/-- Python `s[n:]`: drop the first `n` code points. -/
def pyDropChars (n : Nat) (s : String) : String := String.mk (s.data.drop n)

/-- Python `name or dflt` for an optional string: falsy (`None` or empty)
falls through to the default. -/
def pyOr (name : Option String) (dflt : String) : String :=
  match name with
  | some s => if s == "" then dflt else s
  | none => dflt

/- ## State document data model -/

/-- A value stored for one identifier in `state.json`: either the current
object shape (a dict whose `content` and `updated` keys may each be absent)
or the legacy bare string. -/
inductive StateVal where
  | bare : String → StateVal
  | obj : Option String → Option String → StateVal
deriving DecidableEq, Repr

/-- The in-memory state: Python dict modelled as an association list in
insertion order (first binding of a key is the visible one). -/
abbrev StateMap := List (String × StateVal)

/-- Python `m.get(k)` (`None` when the key is absent). -/
def mapGet {α : Type} (m : List (String × α)) (k : String) : Option α :=
  match m with
  | [] => none
  | p :: rest => if p.1 == k then some p.2 else mapGet rest k

/-- Python `m[k] = v`: replace the first binding of `k` in place, or append a
new binding at the end (insertion-order semantics of a Python dict). -/
def mapSet {α : Type} (m : List (String × α)) (k : String) (v : α) : List (String × α) :=
  match m with
  | [] => [(k, v)]
  | p :: rest => if p.1 == k then (k, v) :: rest else p :: mapSet rest k v

/- ## Disclosure fetcher: parsing (main.py, `fetch_content`) -/

def companyLabel : String := "公司名稱："

def dateLabel : String := "召開法人說明會日期"

def overrunMarker : String := "Overrun"

/-- One `<tr>` of the response: its flattened text and, for each `<td>` cell,
the list of texts of its blue-font elements. -/
structure Row where
  text : String
  tds : List (List String)
deriving DecidableEq, Repr

/-- A response body: the flattened page text and its table rows. -/
structure Response where
  text : String
  rows : List Row
deriving DecidableEq, Repr

/-- `"Overrun" in res.text`: the rate-limit marker test. -/
def Response.isRateLimited (r : Response) : Bool := pyIn overrunMarker r.text

/-- Name extraction (main.py lines 123-126):
`text.split("公司名稱：")[1].split()[0].strip()` guarded by the `in` test.
Taking `[0]` of an empty `split()` raises `IndexError`, modelled as `.error`. -/
def extractName (text : String) : Except String (Option String) :=
  if pyIn companyLabel text then
    match (pySplitOn text companyLabel).drop 1 with
    | after :: _ =>
      match pySplitWS after with
      | tok :: _ => Except.ok (some (pyStrip tok))
      | [] => Except.error "IndexError: list index out of range"
    | [] => Except.error "IndexError: list index out of range"
  else
    Except.ok none

/-- The token filter of main.py line 135: `"/" in b and len(b) >= 8`. -/
def dateTok (b : String) : Bool := b.data.contains '/' && decide (8 ≤ b.data.length)

/-- Date derivation from the blue-font tokens of the last cell
(main.py lines 135-140). -/
def deriveDate (blues : List String) : Option String :=
  let dates := blues.filter dateTok
  match dates with
  | start :: e :: _ =>
    some (if start == e then start else start ++ " ~ " ++ pyDropChars 4 e)
  | [d] => some d
  | [] => none

/-- Date extraction (main.py lines 129-141): the first row whose text
contains the label; within it the last cell's blue-font texts, stripped. -/
def extractConfDate (rows : List Row) : Option String :=
  match rows.find? (fun tr => pyIn dateLabel tr.text) with
  | some tr =>
    match tr.tds.getLast? with
    | some td => deriveDate (td.map pyStrip)
    | none => none
  | none => none

/-- The body of the `try` block after the rate-limit check: name extraction
(which can raise) followed by date extraction. -/
def parseBody (text : String) (rows : List Row) : Except String (Option String × Option String) :=
  match extractName text with
  | Except.error e => Except.error e
  | Except.ok name => Except.ok (name, extractConfDate rows)

/-- The `except Exception` handler of `fetch_content`: any raised exception
is converted to `(None, None)`. -/
def fetchTry (r : Except String (Option String × Option String)) : Option String × Option String :=
  match r with
  | Except.ok v => v
  | Except.error _ => (none, none)

/-- `fetch_content` applied to one non-rate-limited response body. -/
def fetchParsed (r : Response) : Option String × Option String :=
  fetchTry (parseBody r.text r.rows)

/- ## Disclosure fetcher: rate-limit retry loop (main.py lines 103-118) -/

/-- The fixed POST form of the request (main.py lines 105-112). -/
def requestParams (co_id : String) : List (String × String) :=
  [("encodeURIComponent", "1"), ("step", "1"), ("firstin", "true"),
   ("off", "1"), ("TYPEK", "all"), ("co_id", co_id)]

/-- `fetch_content` against a script of successive response bodies: returns
the final parse result (`none` if the script ran out while still
rate-limited), the list of cooldown sleeps taken (each 30 seconds), and the
list of requests issued (each with the same fixed parameters). -/
def fetchRun (co_id : String) :
    List Response → Option (Option String × Option String) × List Nat × List (List (String × String))
  | [] => (none, [], [])
  | r :: rest =>
    if r.isRateLimited then
      let t := fetchRun co_id rest
      (t.1, 30 :: t.2.1, requestParams co_id :: t.2.2)
    else
      (some (fetchParsed r), [], [requestParams co_id])

/- ## Change detector / run orchestrator (main.py, `main`) -/

/-- `old.get("content", "") if isinstance(old, dict) else old`, with
`state.get(co_id, {})` supplying an empty dict when the key is absent. -/
def oldContent (state : StateMap) (co_id : String) : String :=
  match mapGet state co_id with
  | none => ""
  | some (StateVal.bare s) => s
  | some (StateVal.obj c _) => c.getD ""

/-- The per-run mutable data of `main`: the state mapping, the change list
and the display-name lookup. -/
structure RunAcc where
  state : StateMap
  updates : List String
  names : List (String × String)

/-- One iteration of the loop of `main` (lines 160-172) for one identifier,
with the fetch result given by `f`. -/
def stepCompany (today : String) (f : String → Option String × Option String)
    (acc : RunAcc) (co_id : String) : RunAcc :=
  let old_content := oldContent acc.state co_id
  let name := (f co_id).1
  let names' := mapSet acc.names co_id (pyOr name co_id)
  match (f co_id).2 with
  | some c =>
    if !(c == "") && !(c == old_content) then
      { state := mapSet acc.state co_id (StateVal.obj (some c) (some today)),
        updates := acc.updates ++ ["**" ++ co_id ++ " " ++ name.getD "" ++ "**"],
        names := names' }
    else
      { acc with names := names' }
  | none => { acc with names := names' }

/-- The loop of `main` over the remaining identifiers. -/
def runAux (today : String) (f : String → Option String × Option String) :
    RunAcc → List String → RunAcc
  | acc, [] => acc
  | acc, c :: cs => runAux today f (stepCompany today f acc c) cs

/-- One whole run of `main` on deterministic per-identifier fetch results. -/
def runMain (today : String) (f : String → Option String × Option String)
    (companies : List String) (st0 : StateMap) : RunAcc :=
  runAux today f { state := st0, updates := [], names := [] } companies

/- ## Report generator (main.py, `generate_readme`) -/

/-- `sort_key` of `generate_readme` (lines 44-53): a legacy non-dict value
yields `updated = ""` and `content = ""`; an absent identifier yields the
empty dict and hence the same defaults. -/
def sort_key (state : StateMap) (co_id : String) : Int × String :=
  let uc : String × String :=
    match mapGet state co_id with
    | none => ("", "")
    | some (StateVal.obj c u) => (u.getD "", c.getD "")
    | some (StateVal.bare _) => ("", "")
  (if uc.1 == "" then 0 else -(pyInt (pyReplaceSlash uc.1) : Int), uc.2)

/-- The comparison used to sort the report rows: lexicographic on the pair,
integers ascending then content ascending. -/
def keyLe (a b : Int × String) : Bool :=
  decide (a.1 < b.1) || (decide (a.1 = b.1) && strLe a.2 b.2)

/-- The row order of the report as a relation on identifiers. -/
def rowLe (state : StateMap) (a b : String) : Prop :=
  keyLe (sort_key state a) (sort_key state b) = true

instance (state : StateMap) : DecidableRel (rowLe state) :=
  fun _ _ => inferInstanceAs (Decidable (_ = true))

/-- `sorted(companies, key=sort_key)`: a stable sort by `sort_key`. -/
def sortedCompanies (state : StateMap) (companies : List String) : List String :=
  List.insertionSort (rowLe state) companies

/-- Follows the spec's words (claims C4 and C5), not the code: the sort key
with a legacy bare-string record treated as `{content: <string>, updated:
absent}`, i.e. contributing its string as the secondary key. -/
def specSortKey (state : StateMap) (co_id : String) : Int × String :=
  match mapGet state co_id with
  | none => (0, "")
  | some (StateVal.bare s) => (0, s)
  | some (StateVal.obj c u) =>
    let updated := u.getD ""
    (if updated == "" then 0 else -(pyInt (pyReplaceSlash updated) : Int), c.getD "")

/-- One table row of the report (lines 81-90): name falls back to the
identifier, a bare value renders as the content (or `-` when falsy) with `-`
for the updated column, a dict renders its fields with `-` defaults. -/
def renderRow (state : StateMap) (names : List (String × String)) (co_id : String) : String :=
  let name := (mapGet names co_id).getD co_id
  let cu : String × String :=
    match mapGet state co_id with
    | none => ("-", "-")
    | some (StateVal.obj c u) => (c.getD "-", u.getD "-")
    | some (StateVal.bare s) => (if s == "" then "-" else s, "-")
  "| " ++ co_id ++ " | " ++ name ++ " | " ++ cu.1 ++ " | " ++ cu.2 ++ " |"

/-- The table body of the report: one rendered row per identifier, in sorted
order. -/
def reportRows (state : StateMap) (names : List (String × String))
    (companies : List String) : List String :=
  (sortedCompanies state companies).map (renderRow state names)

/- ## State persistence (main.py, `load_state` / `save_state`),
modelled at the JSON-value level -/

/-- The fragment of JSON that state documents use. -/
inductive Json where
  | str : String → Json
  | obj : List (String × Json) → Json

/-- Serialisation of one state value, as `json.dumps` renders it: an object
with exactly the keys that are present. -/
def encodeVal : StateVal → Json
  | StateVal.bare s => Json.str s
  | StateVal.obj c u =>
    Json.obj
      ((match c with | some v => [("content", Json.str v)] | none => []) ++
       (match u with | some v => [("updated", Json.str v)] | none => []))

/-- Field lookup in a JSON object. -/
def jLookup (fields : List (String × Json)) (k : String) : Option Json :=
  match fields with
  | [] => none
  | p :: rest => if p.1 == k then some p.2 else jLookup rest k

def jAsStr : Option Json → Option String
  | some (Json.str s) => some s
  | _ => none

/-- Reading one state value back, accepting both representations: a JSON
string is a legacy bare record, an object is read through its `content` and
`updated` keys. -/
def decodeVal : Json → Option StateVal
  | Json.str s => some (StateVal.bare s)
  | Json.obj fs => some (StateVal.obj (jAsStr (jLookup fs "content")) (jAsStr (jLookup fs "updated")))

/-- Serialisation of the whole mapping. -/
def encodeState (st : StateMap) : Json :=
  Json.obj (st.map (fun p => (p.1, encodeVal p.2)))

/-- Reading every field of the document back. -/
def decodeFields : List (String × Json) → Option StateMap
  | [] => some []
  | p :: rest =>
    match decodeVal p.2, decodeFields rest with
    | some v, some m => some ((p.1, v) :: m)
    | _, _ => none

/-- Reading the whole mapping back. -/
def decodeState : Json → Option StateMap
  | Json.str _ => none
  | Json.obj fs => decodeFields fs

/-- The fetch result for an identifier is already recorded: whenever the
fetch yields a truthy content for `x`, the stored prior content equals it.
After a run this holds for every processed identifier, which is what makes
a second run with the same responses a no-op. -/
def Settled (f : String → Option String × Option String) (s : StateMap) (x : String) : Prop :=
  ∀ v, (f x).2 = some v → v ≠ "" → oldContent s x = v

/- ## Lemmas about the dict model -/

theorem mapGet_mapSet_self {α : Type} (m : List (String × α)) (k : String) (v : α) :
    mapGet (mapSet m k v) k = some v := by
  induction m with
  | nil => simp [mapSet, mapGet]
  | cons p rest ih =>
    by_cases h : p.1 = k
    · simp [mapSet, mapGet, h]
    · simp [mapSet, mapGet, h, ih]

theorem mapGet_mapSet_ne {α : Type} (m : List (String × α)) (k : String) (v : α)
    (y : String) (h : y ≠ k) : mapGet (mapSet m k v) y = mapGet m y := by
  induction m with
  | nil => simp [mapSet, mapGet, Ne.symm h]
  | cons p rest ih =>
    by_cases hp : p.1 = k
    · have hpy : ¬p.1 = y := fun hy => h (hy.symm.trans hp)
      simp [mapSet, mapGet, hp, hpy, Ne.symm h]
    · by_cases hy : p.1 = y <;> simp [mapSet, mapGet, hp, hy, ih, Ne.symm h, h]

/- ## Lemmas about one loop iteration -/

/-- Identifiers other than the processed one keep their stored value. -/
theorem stepCompany_state_ne (today : String) (f : String → Option String × Option String)
    (acc : RunAcc) (co_id y : String) (h : y ≠ co_id) :
    mapGet (stepCompany today f acc co_id).state y = mapGet acc.state y := by
  unfold stepCompany
  cases hf : (f co_id).2 with
  | none => rfl
  | some c =>
    by_cases hcond : (!(c == "") && !(c == oldContent acc.state co_id)) = true
    · simp only [hcond, if_true, mapGet_mapSet_ne acc.state co_id _ y h]
    · simp only [Bool.not_eq_true] at hcond
      simp only [hcond, Bool.false_eq_true, if_false]

/-- A fetch with no usable content, or with unchanged content, leaves both
the state and the change list exactly as they were. -/
theorem stepCompany_noop (today : String) (f : String → Option String × Option String)
    (acc : RunAcc) (co_id : String)
    (h : (f co_id).2 = none ∨ (f co_id).2 = some "" ∨
         (f co_id).2 = some (oldContent acc.state co_id)) :
    (stepCompany today f acc co_id).state = acc.state ∧
    (stepCompany today f acc co_id).updates = acc.updates := by
  unfold stepCompany
  rcases h with h | h | h <;> simp [h]

/- ## Claims C1 and C2: change detection -/

/-- Claim C1: when the fetch for an identifier returns a non-empty content
different from the prior record's content, the iteration writes the record
`{content, updated: today}` for that identifier, appends exactly one change
entry (built from the identifier and the fetched name, the name rendered
empty when absent), and leaves every other identifier's record untouched. -/
theorem claim_C1 (today : String) (f : String → Option String × Option String)
    (acc : RunAcc) (co_id c : String)
    (hc : (f co_id).2 = some c) (hne : c ≠ "")
    (hdiff : c ≠ oldContent acc.state co_id) :
    mapGet (stepCompany today f acc co_id).state co_id
        = some (StateVal.obj (some c) (some today)) ∧
    (stepCompany today f acc co_id).updates
        = acc.updates ++ ["**" ++ co_id ++ " " ++ ((f co_id).1).getD "" ++ "**"] ∧
    ∀ y, y ≠ co_id →
      mapGet (stepCompany today f acc co_id).state y = mapGet acc.state y := by
  have hcond : (!(c == "") && !(c == oldContent acc.state co_id)) = true := by
    simp [hne, hdiff]
  refine ⟨?_, ?_, fun y hy => stepCompany_state_ne today f acc co_id y hy⟩
  · unfold stepCompany
    simp [hc, hcond, mapGet_mapSet_self]
  · unfold stepCompany
    simp [hc, hcond]

theorem claim_C1_witness :
    mapGet (stepCompany "2024/06/11" (fun _ => (some "台積電", some "2024/06/10"))
        ⟨[("2330", StateVal.obj (some "2024/05/01") (some "2024/04/01")),
          ("2317", StateVal.bare "keep")], ["prior"], []⟩ "2330").state "2330"
      = some (StateVal.obj (some "2024/06/10") (some "2024/06/11")) ∧
    (stepCompany "2024/06/11" (fun _ => (some "台積電", some "2024/06/10"))
        ⟨[("2330", StateVal.obj (some "2024/05/01") (some "2024/04/01")),
          ("2317", StateVal.bare "keep")], ["prior"], []⟩ "2330").updates
      = ["prior", "**2330 台積電**"] ∧
    mapGet (stepCompany "2024/06/11" (fun _ => (some "台積電", some "2024/06/10"))
        ⟨[("2330", StateVal.obj (some "2024/05/01") (some "2024/04/01")),
          ("2317", StateVal.bare "keep")], ["prior"], []⟩ "2330").state "2317"
      = some (StateVal.bare "keep") := by
  have h := claim_C1 "2024/06/11" (fun _ => (some "台積電", some "2024/06/10"))
    ⟨[("2330", StateVal.obj (some "2024/05/01") (some "2024/04/01")),
      ("2317", StateVal.bare "keep")], ["prior"], []⟩ "2330" "2024/06/10"
    rfl (by decide) (by decide)
  refine ⟨h.1, ?_, ?_⟩
  · rw [h.2.1]
    decide
  · rw [h.2.2 "2317" (by decide)]
    decide

/-- Claim C2: a fetch returning an absent or empty content, or a content
equal to the prior record's content, leaves the entire state mapping (and in
particular that identifier's record with its updated date) unchanged; the
updated field is only rewritten together with a content change. -/
theorem claim_C2 (today : String) (f : String → Option String × Option String)
    (acc : RunAcc) (co_id : String)
    (h : (f co_id).2 = none ∨ (f co_id).2 = some "" ∨
         (f co_id).2 = some (oldContent acc.state co_id)) :
    (stepCompany today f acc co_id).state = acc.state :=
  (stepCompany_noop today f acc co_id h).1

theorem claim_C2_witness :
    (stepCompany "2024/06/11" (fun _ => (none, some "2024/05/01"))
        ⟨[("2330", StateVal.obj (some "2024/05/01") (some "2024/04/01"))], [], []⟩
        "2330").state
      = [("2330", StateVal.obj (some "2024/05/01") (some "2024/04/01"))] :=
  claim_C2 "2024/06/11" (fun _ => (none, some "2024/05/01"))
    ⟨[("2330", StateVal.obj (some "2024/05/01") (some "2024/04/01"))], [], []⟩
    "2330" (Or.inr (Or.inr (by decide)))

/- ## Claim C3: date-range derivation -/

/-- Claim C3, counterexample: on tokens `["2024/07/01", "2024/07/03"]` the
code strips the first four characters of the end date, producing
`"2024/07/01 ~ /07/03"`, not the claimed `"2024/07/01 ~ /03"`. -/
theorem claim_C3_counterexample :
    deriveDate ["2024/07/01", "2024/07/03"] = some "2024/07/01 ~ /07/03" ∧
    deriveDate ["2024/07/01", "2024/07/03"] ≠ some "2024/07/01 ~ /03" := by
  decide

/-- Claim C3 (amended): after keeping only tokens containing a slash and at
least 8 characters long, two or more qualifying tokens with equal first two
yield the first token; a differing first two yield the start, a tilde, and
the end with its first 4 characters stripped (so the claim's example tokens
yield `"2024/07/01 ~ /07/03"`); exactly one qualifying token is returned
verbatim; no qualifying token, or no row carrying the label, yields an
absent date. -/
theorem claim_C3_amended (blues : List String) (rows : List Row) :
    (∀ a b rest, blues.filter dateTok = a :: b :: rest →
       (a = b → deriveDate blues = some a) ∧
       (a ≠ b → deriveDate blues = some (a ++ " ~ " ++ pyDropChars 4 b))) ∧
    (∀ a, blues.filter dateTok = [a] → deriveDate blues = some a) ∧
    (blues.filter dateTok = [] → deriveDate blues = none) ∧
    ((∀ r ∈ rows, pyIn dateLabel r.text = false) → extractConfDate rows = none) := by
  refine ⟨?_, ?_, ?_, ?_⟩
  · intro a b rest h
    constructor
    · intro hab
      subst hab
      unfold deriveDate
      rw [h]
      simp
    · intro hab
      unfold deriveDate
      rw [h]
      simp [hab]
  · intro a h
    unfold deriveDate
    rw [h]
  · intro h
    unfold deriveDate
    rw [h]
  · intro h
    unfold extractConfDate
    rw [List.find?_eq_none.mpr (by simpa using h)]

theorem claim_C3_witness :
    deriveDate ["2024/07/01", "2024/07/03"]
      = some ("2024/07/01" ++ " ~ " ++ pyDropChars 4 "2024/07/03") ∧
    deriveDate ["2024/07/01", "2024/07/01"] = some "2024/07/01" ∧
    deriveDate ["xx", "2024/08/15"] = some "2024/08/15" ∧
    deriveDate ["xx"] = none ∧
    extractConfDate [Row.mk "some other row" [["2024/07/01"]]] = none := by
  refine ⟨?_, ?_, ?_, ?_, ?_⟩
  · exact ((claim_C3_amended ["2024/07/01", "2024/07/03"] []).1
      "2024/07/01" "2024/07/03" [] (by decide)).2 (by decide)
  · exact ((claim_C3_amended ["2024/07/01", "2024/07/01"] []).1
      "2024/07/01" "2024/07/01" [] (by decide)).1 rfl
  · exact (claim_C3_amended ["xx", "2024/08/15"] []).2.1 "2024/08/15" (by decide)
  · exact (claim_C3_amended ["xx"] []).2.2.1 (by decide)
  · exact (claim_C3_amended [] [Row.mk "some other row" [["2024/07/01"]]]).2.2.2
      (by decide)

/- ## Order lemmas for the report's sort -/

theorem listLe_total (as : List Char) : ∀ bs, listLe as bs = true ∨ listLe bs as = true := by
  induction as with
  | nil => intro bs; exact Or.inl rfl
  | cons a as ih =>
    intro bs
    cases bs with
    | nil => exact Or.inr rfl
    | cons b bs =>
      rcases Nat.lt_trichotomy a.toNat b.toNat with h | h | h
      · left; simp [listLe, h]
      · rcases ih bs with h2 | h2
        · left; simp [listLe, h, h2]
        · right; simp [listLe, h.symm, h2]
      · right; simp [listLe, h]

theorem listLe_trans (as : List Char) :
    ∀ bs cs, listLe as bs = true → listLe bs cs = true → listLe as cs = true := by
  induction as with
  | nil => intro bs cs _ _; rfl
  | cons a as ih =>
    intro bs cs hab hbc
    cases bs with
    | nil => simp [listLe] at hab
    | cons b bs =>
      cases cs with
      | nil => simp [listLe] at hbc
      | cons c cs =>
        simp only [listLe, Bool.or_eq_true, Bool.and_eq_true, decide_eq_true_eq] at hab hbc ⊢
        rcases hab with h1 | ⟨h1, h1'⟩ <;> rcases hbc with h2 | ⟨h2, h2'⟩
        · exact Or.inl (h1.trans h2)
        · exact Or.inl (by omega)
        · exact Or.inl (by omega)
        · exact Or.inr ⟨h1.trans h2, ih bs cs h1' h2'⟩

theorem keyLe_total (a b : Int × String) : keyLe a b = true ∨ keyLe b a = true := by
  unfold keyLe
  rcases lt_trichotomy a.1 b.1 with h | h | h
  · left; simp [h]
  · rcases listLe_total a.2.data b.2.data with h2 | h2
    · left; simp [strLe, h, h2]
    · right; simp [strLe, h.symm, h2]
  · right; simp [h]

theorem keyLe_trans (a b c : Int × String)
    (hab : keyLe a b = true) (hbc : keyLe b c = true) : keyLe a c = true := by
  unfold keyLe strLe at hab hbc ⊢
  simp only [Bool.or_eq_true, Bool.and_eq_true, decide_eq_true_eq] at hab hbc ⊢
  rcases hab with h1 | ⟨h1, h1'⟩ <;> rcases hbc with h2 | ⟨h2, h2'⟩
  · exact Or.inl (h1.trans h2)
  · exact Or.inl (by omega)
  · exact Or.inl (by omega)
  · exact Or.inr ⟨h1.trans h2, listLe_trans _ _ _ h1' h2'⟩

instance (state : StateMap) : IsTotal String (rowLe state) :=
  ⟨fun a b => keyLe_total (sort_key state a) (sort_key state b)⟩

instance (state : StateMap) : IsTrans String (rowLe state) :=
  ⟨fun _ _ _ => keyLe_trans _ _ _⟩

/- ## Claims C4 and C5: report sorting and the legacy record shape -/

/-- Claim C4, counterexample: with a legacy bare-string record `"zzz"` for
identifier `A` and an object record with content `"aaa"` for `B`, the claim's
sort key (content of the record as secondary key) puts `B` strictly before
`A`, but the code keys a bare record with empty content and renders `A`
first. -/
theorem claim_C4_counterexample :
    sortedCompanies [("A", StateVal.bare "zzz"), ("B", StateVal.obj (some "aaa") none)]
        ["B", "A"] = ["A", "B"] ∧
    specSortKey [("A", StateVal.bare "zzz"), ("B", StateVal.obj (some "aaa") none)] "B"
        = (0, "aaa") ∧
    specSortKey [("A", StateVal.bare "zzz"), ("B", StateVal.obj (some "aaa") none)] "A"
        = (0, "zzz") ∧
    keyLe (0, "aaa") (0, "zzz") = true ∧
    keyLe (0, "zzz") (0, "aaa") = false := by
  decide

/-- Claim C4 (amended): the report's rows are a permutation of the
identifier list ordered by the code's sort key — primary: negative of the
record's updated date with separators removed (identifiers with no record,
and legacy bare-string records, sort as if updated were zero); secondary:
ascending lexical order on the content the key extracts, which is the
object record's content string but the empty string for a legacy
bare-string record. -/
theorem claim_C4_amended (state : StateMap) (companies : List String) :
    (sortedCompanies state companies).Perm companies ∧
    List.Sorted (rowLe state) (sortedCompanies state companies) :=
  ⟨List.perm_insertionSort _ companies, List.sorted_insertionSort _ companies⟩

/-- Claim C5, counterexample: sorting does not treat a legacy bare-string
record like an object record with that content and no updated date — the
bare record keys as `(0, "")` while the equivalent object record keys as
`(0, "bbb")`. -/
theorem claim_C5_counterexample :
    sort_key [("X", StateVal.bare "bbb")] "X" = (0, "") ∧
    sort_key [("X", StateVal.obj (some "bbb") none)] "X" = (0, "bbb") ∧
    ((0, "") : Int × String) ≠ ((0, "bbb") : Int × String) := by
  decide

/-- Claim C5 (amended): a persisted bare-string value is read without error
as a legacy record; change detection takes the bare string as the prior
content, and the report renders it in the content column with `-` in the
updated column; sorting, however, keys a bare-string record as `(0, "")`
— empty content and absent updated — not by its content string. -/
theorem claim_C5_amended (state : StateMap) (names : List (String × String))
    (co_id s : String) (hs : mapGet state co_id = some (StateVal.bare s))
    (hne : s ≠ "") :
    decodeVal (Json.str s) = some (StateVal.bare s) ∧
    oldContent state co_id = s ∧
    renderRow state names co_id
      = "| " ++ co_id ++ " | " ++ (mapGet names co_id).getD co_id ++ " | " ++ s ++ " | " ++ "-" ++ " |" ∧
    sort_key state co_id = (0, "") := by
  refine ⟨rfl, ?_, ?_, ?_⟩
  · unfold oldContent
    rw [hs]
  · unfold renderRow
    rw [hs]
    simp [hne]
  · unfold sort_key
    rw [hs]
    rfl

theorem claim_C5_witness :
    oldContent [("X", StateVal.bare "2024/05/01")] "X" = "2024/05/01" ∧
    renderRow [("X", StateVal.bare "2024/05/01")] [] "X" = "| X | X | 2024/05/01 | - |" ∧
    sort_key [("X", StateVal.bare "2024/05/01")] "X" = (0, "") := by
  have h := claim_C5_amended [("X", StateVal.bare "2024/05/01")] [] "X" "2024/05/01"
    (by decide) (by decide)
  refine ⟨h.2.1, ?_, h.2.2.2⟩
  rw [h.2.2.1]
  decide

/- ## Claim C6: rate-limit retry -/

/-- Claim C6: every response body containing the rate-limit marker causes
exactly one fixed 30-unit cooldown followed by a retry of the identical
request (same identifier, same fixed parameters), with no retry cap and no
backoff growth, until the first marker-free response is parsed and returned;
in particular a marker-then-success script yields one cooldown and one
retried request. -/
theorem claim_C6 (co_id : String) (lim : List Response) (ok : Response)
    (hlim : ∀ r ∈ lim, r.isRateLimited = true) (hok : ok.isRateLimited = false) :
    fetchRun co_id (lim ++ [ok])
      = (some (fetchParsed ok), List.replicate lim.length 30,
         List.replicate (lim.length + 1) (requestParams co_id)) := by
  induction lim with
  | nil => simp [fetchRun, hok]
  | cons r rest ih =>
    have hr := hlim r (List.mem_cons_self r rest)
    have ih' := ih (fun x hx => hlim x (List.mem_cons_of_mem r hx))
    simp [fetchRun, hr, ih', List.replicate_succ]

theorem claim_C6_witness :
    fetchRun "2330" [Response.mk "xxOverrunyy" [], Response.mk "all good" []]
      = (some (none, none), [30], [requestParams "2330", requestParams "2330"]) := by
  have hl : ∀ r ∈ [Response.mk "xxOverrunyy" []], r.isRateLimited = true := by
    intro r hr
    rw [List.mem_singleton] at hr
    subst hr
    decide
  have h := claim_C6 "2330" [Response.mk "xxOverrunyy" []] (Response.mk "all good" [])
    hl (by decide)
  rw [show ([Response.mk "xxOverrunyy" [], Response.mk "all good" []])
        = [Response.mk "xxOverrunyy" []] ++ [Response.mk "all good" []] from rfl, h]
  decide

/- ## Claim C7: exception recovery -/

/-- Claim C7: an exception raised during the fetch's request or parse steps
is converted by the handler into the result `(absent, absent)`; the loop
body on that result leaves the state mapping and change list untouched, and
the run continues with the remaining identifiers. -/
theorem claim_C7 (e : String) (today : String)
    (f : String → Option String × Option String) (acc : RunAcc)
    (co_id : String) (cs : List String) (hf : f co_id = (none, none)) :
    fetchTry (Except.error e) = (none, none) ∧
    (stepCompany today f acc co_id).state = acc.state ∧
    (stepCompany today f acc co_id).updates = acc.updates ∧
    runAux today f acc (co_id :: cs) = runAux today f (stepCompany today f acc co_id) cs := by
  have h2 := stepCompany_noop today f acc co_id (Or.inl (by rw [hf]))
  exact ⟨rfl, h2.1, h2.2, rfl⟩

theorem claim_C7_witness :
    fetchTry (Except.error "timeout") = (none, none) ∧
    (stepCompany "2024/06/11" (fun _ => (none, none))
        ⟨[("2330", StateVal.bare "keep")], [], []⟩ "2330").state
      = [("2330", StateVal.bare "keep")] ∧
    (stepCompany "2024/06/11" (fun _ => (none, none))
        ⟨[("2330", StateVal.bare "keep")], [], []⟩ "2330").updates = [] ∧
    runAux "2024/06/11" (fun _ => (none, none))
        ⟨[("2330", StateVal.bare "keep")], [], []⟩ ["2330", "2317"]
      = runAux "2024/06/11" (fun _ => (none, none))
          (stepCompany "2024/06/11" (fun _ => (none, none))
            ⟨[("2330", StateVal.bare "keep")], [], []⟩ "2330") ["2317"] :=
  claim_C7 "timeout" "2024/06/11" (fun _ => (none, none))
    ⟨[("2330", StateVal.bare "keep")], [], []⟩ "2330" ["2317"] rfl

/- ## Lemmas towards idempotence (C8) and the write-shape invariant (C9) -/

theorem oldContent_ext (s1 s2 : StateMap) (y : String)
    (h : mapGet s1 y = mapGet s2 y) : oldContent s1 y = oldContent s2 y := by
  unfold oldContent
  rw [h]

/-- Exhaustive description of one loop iteration: either nothing usable was
fetched (no content, empty content, or unchanged content) and both the state
and the change list are untouched, or a changed non-empty content was
fetched and exactly the new record and one change entry are written. -/
theorem stepCompany_cases (today : String) (f : String → Option String × Option String)
    (acc : RunAcc) (co_id : String) :
    (((f co_id).2 = none ∨
        ∃ v, (f co_id).2 = some v ∧ (v = "" ∨ v = oldContent acc.state co_id)) ∧
      (stepCompany today f acc co_id).state = acc.state ∧
      (stepCompany today f acc co_id).updates = acc.updates) ∨
    (∃ v, (f co_id).2 = some v ∧ v ≠ "" ∧ v ≠ oldContent acc.state co_id ∧
      (stepCompany today f acc co_id).state
        = mapSet acc.state co_id (StateVal.obj (some v) (some today)) ∧
      (stepCompany today f acc co_id).updates
        = acc.updates ++ ["**" ++ co_id ++ " " ++ (f co_id).1.getD "" ++ "**"]) := by
  unfold stepCompany
  cases hf : (f co_id).2 with
  | none => exact Or.inl ⟨Or.inl rfl, rfl, rfl⟩
  | some v =>
    by_cases h1 : v = ""
    · refine Or.inl ⟨Or.inr ⟨v, rfl, Or.inl h1⟩, ?_, ?_⟩ <;> simp [h1]
    · by_cases h2 : v = oldContent acc.state co_id
      · refine Or.inl ⟨Or.inr ⟨v, rfl, Or.inr h2⟩, ?_, ?_⟩ <;> simp [h1, h2]
      · refine Or.inr ⟨v, rfl, h1, h2, ?_, ?_⟩ <;> simp [h1, h2]

theorem stepCompany_settled_self (today : String) (f : String → Option String × Option String)
    (acc : RunAcc) (co_id : String) :
    Settled f (stepCompany today f acc co_id).state co_id := by
  intro v hv hne
  rcases stepCompany_cases today f acc co_id with ⟨hwhy, hs, _⟩ | ⟨w, hw, _, _, hs, _⟩
  · rw [oldContent_ext _ acc.state co_id (by rw [hs])]
    rcases hwhy with h | ⟨w, hw, hcase⟩
    · rw [h] at hv
      cases hv
    · rw [hw] at hv
      injection hv with hv
      subst hv
      rcases hcase with h | h
      · exact absurd h hne
      · exact h.symm
  · rw [hw] at hv
    injection hv with hv
    subst hv
    unfold oldContent
    rw [hs, mapGet_mapSet_self]
    rfl

theorem stepCompany_settled_preserve (today : String)
    (f : String → Option String × Option String) (acc : RunAcc) (co_id y : String)
    (h : Settled f acc.state y) : Settled f (stepCompany today f acc co_id).state y := by
  by_cases hy : y = co_id
  · subst hy
    exact stepCompany_settled_self today f acc y
  · intro v hv hne
    rw [oldContent_ext _ acc.state y (stepCompany_state_ne today f acc co_id y hy)]
    exact h v hv hne

theorem runAux_settled (today : String) (f : String → Option String × Option String) :
    ∀ (cs : List String) (acc : RunAcc) (y : String),
    (y ∈ cs ∨ Settled f acc.state y) → Settled f (runAux today f acc cs).state y := by
  intro cs
  induction cs with
  | nil =>
    intro acc y h
    rcases h with h | h
    · cases h
    · exact h
  | cons c cs ih =>
    intro acc y h
    rcases h with h | h
    · rcases List.mem_cons.mp h with h | h
      · subst h
        exact ih (stepCompany today f acc y) y
          (Or.inr (stepCompany_settled_self today f acc y))
      · exact ih _ y (Or.inl h)
    · exact ih _ y (Or.inr (stepCompany_settled_preserve today f acc c y h))

theorem stepCompany_settled_noop (today : String)
    (f : String → Option String × Option String) (acc : RunAcc) (co_id : String)
    (h : Settled f acc.state co_id) :
    (stepCompany today f acc co_id).state = acc.state ∧
    (stepCompany today f acc co_id).updates = acc.updates := by
  rcases stepCompany_cases today f acc co_id with ⟨_, hs, hu⟩ | ⟨w, hw, hwne, hwdiff, _, _⟩
  · exact ⟨hs, hu⟩
  · exact absurd (h w hw hwne) (Ne.symm hwdiff)

theorem runAux_settled_noop (today2 : String) (f : String → Option String × Option String) :
    ∀ (cs : List String) (acc : RunAcc),
    (∀ y ∈ cs, Settled f acc.state y) →
    (runAux today2 f acc cs).state = acc.state ∧
    (runAux today2 f acc cs).updates = acc.updates := by
  intro cs
  induction cs with
  | nil => intro acc _; exact ⟨rfl, rfl⟩
  | cons c cs ih =>
    intro acc h
    have hc := stepCompany_settled_noop today2 f acc c (h c (List.mem_cons_self c cs))
    have hrest : ∀ y ∈ cs, Settled f (stepCompany today2 f acc c).state y := by
      intro y hy
      rw [hc.1]
      exact h y (List.mem_cons_of_mem c hy)
    have hr := ih (stepCompany today2 f acc c) hrest
    exact ⟨hr.1.trans hc.1, hr.2.trans hc.2⟩

theorem decode_encode_val (v : StateVal) : decodeVal (encodeVal v) = some v := by
  cases v with
  | bare s => rfl
  | obj c u => cases c <;> cases u <;> rfl

theorem decode_encode_state (st : StateMap) : decodeState (encodeState st) = some st := by
  induction st with
  | nil => rfl
  | cons p rest ih =>
    show decodeFields ((p.1, encodeVal p.2) :: rest.map (fun q => (q.1, encodeVal q.2)))
        = some (p :: rest)
    have ih' : decodeFields (rest.map (fun q => (q.1, encodeVal q.2))) = some rest := ih
    simp only [decodeFields, decode_encode_val, ih']

/- ## Claims C8 and C9 -/

/-- Claim C8: running the pipeline a second time against the same
per-identifier fetch results produces an empty change list and leaves the
state mapping unchanged; and the persisted document round-trips — decoding
what was encoded yields the identical mapping. -/
theorem claim_C8 (today today2 : String) (f : String → Option String × Option String)
    (companies : List String) (st0 : StateMap) :
    (runMain today2 f companies (runMain today f companies st0).state).updates = [] ∧
    (runMain today2 f companies (runMain today f companies st0).state).state
      = (runMain today f companies st0).state ∧
    ∀ st : StateMap, decodeState (encodeState st) = some st := by
  have hset : ∀ y ∈ companies, Settled f (runMain today f companies st0).state y :=
    fun y hy => runAux_settled today f companies ⟨st0, [], []⟩ y (Or.inl hy)
  have h := runAux_settled_noop today2 f companies
    ⟨(runMain today f companies st0).state, [], []⟩ hset
  exact ⟨h.2, h.1, decode_encode_state⟩

theorem stepCompany_written (today : String) (f : String → Option String × Option String)
    (acc : RunAcc) (co_id x : String) :
    mapGet (stepCompany today f acc co_id).state x = mapGet acc.state x ∨
    ∃ v, v ≠ "" ∧ mapGet (stepCompany today f acc co_id).state x
        = some (StateVal.obj (some v) (some today)) := by
  rcases stepCompany_cases today f acc co_id with ⟨_, hs, _⟩ | ⟨w, _, hwne, _, hs, _⟩
  · left
    rw [hs]
  · by_cases hx : x = co_id
    · subst hx
      right
      exact ⟨w, hwne, by rw [hs, mapGet_mapSet_self]⟩
    · left
      rw [hs, mapGet_mapSet_ne _ _ _ _ hx]

theorem runAux_written (today : String) (f : String → Option String × Option String) :
    ∀ (cs : List String) (acc : RunAcc) (x : String),
    mapGet (runAux today f acc cs).state x = mapGet acc.state x ∨
    ∃ v, v ≠ "" ∧ mapGet (runAux today f acc cs).state x
        = some (StateVal.obj (some v) (some today)) := by
  intro cs
  induction cs with
  | nil =>
    intro acc x
    left
    rfl
  | cons c cs ih =>
    intro acc x
    rcases ih (stepCompany today f acc c) x with h | ⟨v, hv, h⟩
    · rcases stepCompany_written today f acc c x with h2 | ⟨v, hv, h2⟩
      · left
        exact h.trans h2
      · right
        exact ⟨v, hv, h.trans h2⟩
    · right
      exact ⟨v, hv, h⟩

/-- Claim C9: after any run, every identifier's stored value is either
exactly what it was before the run, or an object-shape record with a
non-empty content and the run's today date — so the change detector never
stores an empty content or a non-object value, and a legacy bare-string
entry is replaced by the object shape on its first detected change. -/
theorem claim_C9 (today : String) (f : String → Option String × Option String)
    (companies : List String) (st0 : StateMap) (x : String) :
    mapGet (runMain today f companies st0).state x = mapGet st0 x ∨
    ∃ v, v ≠ "" ∧ mapGet (runMain today f companies st0).state x
        = some (StateVal.obj (some v) (some today)) :=
  runAux_written today f companies ⟨st0, [], []⟩ x

/- ## Claim C10: missing name token after the label poisons the whole fetch -/

/-- Claim C10: when the company-name label occurs in the page text but no
non-whitespace token follows it, name extraction raises, the blanket handler
turns the fetch into `(absent, absent)`, and the conference date is absent
too — even though the same response carries a labeled date row that date
extraction alone would parse. -/
theorem claim_C10 (text : String) (rows : List Row) (after : String)
    (rest : List String) (d : String)
    (hin : pyIn companyLabel text = true)
    (hsplit : (pySplitOn text companyLabel).drop 1 = after :: rest)
    (hws : pySplitWS after = [])
    (hdate : extractConfDate rows = some d) :
    fetchParsed (Response.mk text rows) = (none, none) ∧
    extractConfDate rows = some d := by
  refine ⟨?_, hdate⟩
  simp only [fetchParsed, parseBody, extractName, hin, if_true, hsplit, hws]
  rfl

theorem claim_C10_witness :
    fetchParsed (Response.mk "A公司名稱： "
        [Row.mk "xx召開法人說明會日期yy" [["2024/07/01"]]]) = (none, none) ∧
    extractConfDate [Row.mk "xx召開法人說明會日期yy" [["2024/07/01"]]]
      = some "2024/07/01" :=
  claim_C10 "A公司名稱： " [Row.mk "xx召開法人說明會日期yy" [["2024/07/01"]]]
    " " [] "2024/07/01" (by decide) (by decide) (by decide) (by decide)

end Mops
